import Mathlib

/-
Verification of the worldview globe renderer: a shallow embedding of the
coordinate transform (geoUtils.latLonToVector3), the TopoJSON arc stitcher
(CountryLoader.stitchArcs / parseTopoJSON), the sphere triangulator
(Globe.createFilledPolygon / Globe.subdivideTriangle), the picker occlusion
logic (Globe mousemove / onCanvasClick handlers) and the overlay orientation
engine (CountryOverlay.update / show / _localFrame / _ndcToGlobeDir).

Real-number convention: JavaScript floating point is modelled by exact real
arithmetic.  THREE.Vector3.normalize divides by the vector length; for the
zero vector this model follows the Lean convention that division by zero is
zero, so normalizing the zero vector yields the zero vector (the JavaScript
code produces NaN components there; in both semantics the result is not a
point of the sphere, which is what the affected claims depend on).
-/

noncomputable section

open Real

/-! ## 3D vectors, modelling THREE.Vector3 -/

abbrev V3 := Fin 3 → ℝ

def dot3 (u v : V3) : ℝ := u 0 * v 0 + u 1 * v 1 + u 2 * v 2

def normSq3 (v : V3) : ℝ := dot3 v v

/-- Length of a vector, THREE.Vector3.length. -/
def norm3 (v : V3) : ℝ := Real.sqrt (normSq3 v)

/-- Distance between two points, THREE.Vector3.distanceTo. -/
def dist3 (u v : V3) : ℝ := norm3 (u - v)

/-- Cross product, THREE.Vector3.crossVectors. -/
def cross3 (u v : V3) : V3 :=
  ![u 1 * v 2 - u 2 * v 1, u 2 * v 0 - u 0 * v 2, u 0 * v 1 - u 1 * v 0]

/-- THREE.Vector3.normalize: divideScalar by the length (length 0 gives the
zero vector under the real-division-by-zero convention, see header note). -/
def normalize3 (v : V3) : V3 := (1 / norm3 v) • v

/-- THREE.Vector3.setLength: normalize then multiply by the requested length. -/
def setLength3 (v : V3) (l : ℝ) : V3 := l • normalize3 v

/-! ## geoUtils.js -/

/-- Translation of latLonToVector3 from src/utils/geoUtils.js, with the
polar angle phi = (90 - lat) * pi / 180 and azimuth
theta = (lon + 180) * pi / 180 inlined. -/
def latLonToVector3 (lat lon radius : ℝ) : V3 :=
  ![-radius * Real.sin ((90 - lat) * (Real.pi / 180)) *
      Real.cos ((lon + 180) * (Real.pi / 180)),
    radius * Real.cos ((90 - lat) * (Real.pi / 180)),
    radius * Real.sin ((90 - lat) * (Real.pi / 180)) *
      Real.sin ((lon + 180) * (Real.pi / 180))]

/-- Translation of coordsToVectors from src/utils/geoUtils.js; a coordinate
pair is (lon, lat) as in GeoJSON. -/
def coordsToVectors (coordinates : List (ℝ × ℝ)) (radius : ℝ) : List V3 :=
  coordinates.map (fun p => latLonToVector3 p.2 p.1 radius)

end

/-! ## CountryLoader: TopoJSON arc decoding and stitching

The arc stitcher is generic in the point type, exactly as the JavaScript is:
it only slices, reverses and concatenates the decoded arc point lists. -/

/-- Arc lookup, modelling `arcs[arcIndex < 0 ? ~arcIndex : arcIndex]` followed
by `slice().reverse()` for negative indices (bitwise complement ~i = -i-1). -/
def resolveArc {α : Type} (arcs : List (List α)) (i : ℤ) : List α :=
  if i < 0 then (arcs.getD (-i - 1).toNat []).reverse else arcs.getD i.toNat []

/-- Loop body accumulator of CountryLoader.stitchArcs: each referenced arc is
appended, skipping its first point when the ring under construction is
already non-empty. -/
def stitchAux {α : Type} (arcs : List (List α)) : List ℤ → List α → List α
  | [], acc => acc
  | i :: rest, acc =>
      let points := resolveArc arcs i
      stitchAux arcs rest (acc ++ if 0 < acc.length then points.drop 1 else points)

/-- Translation of CountryLoader.stitchArcs (the delta-decoding variant in the
source that skips the first point of subsequent arcs). -/
def stitchArcs {α : Type} (arcIndices : List ℤ) (arcs : List (List α)) : List α :=
  stitchAux arcs arcIndices []

/-- Modelled from the spec wording for comparison: the stitched ring is the
in-order concatenation of the referenced decoded arcs where every arc after
the first drops its first point. -/
def stitchSpec {α : Type} (arcIndices : List ℤ) (arcs : List (List α)) : List α :=
  match arcIndices.map (resolveArc arcs) with
  | [] => []
  | a :: rest => a ++ (rest.map (fun l => l.drop 1)).flatten

noncomputable section

/-- Delta decoding of one raw arc with the shared affine transform, modelling
the decodedArcs computation in CountryLoader.parseTopoJSON. -/
def decodeArc (scale translate : ℝ × ℝ) (arc : List (ℤ × ℤ)) : List (ℝ × ℝ) :=
  (arc.foldl
    (fun (st : (ℤ × ℤ) × List (ℝ × ℝ)) d =>
      let x := st.1.1 + d.1
      let y := st.1.2 + d.2
      ((x, y), st.2 ++ [((x : ℝ) * scale.1 + translate.1, (y : ℝ) * scale.2 + translate.2)]))
    ((0, 0), [])).2

end

/-! ## Picker occlusion decision

THREE.Raycaster.intersectObjects returns hits sorted by distance ascending;
the handlers in Globe.setupRaycaster and Globe.onCanvasClick look only at the
head of each list.  The decision is generic in the distance order and the
label type. -/

/-- Decision common to the mousemove hover handler and onCanvasClick: report
the first feature hit unless the globe sphere is hit strictly closer. -/
def pickTopmost {δ α : Type} [LinearOrder δ]
    (featureHits : List (δ × α)) (globeHits : List δ) : Option α :=
  match featureHits with
  | [] => none
  | (d, lab) :: _ =>
      match globeHits with
      | [] => some lab
      | g :: _ => if g < d then none else some lab

/-! ## Globe: sphere triangulation (createFilledPolygon / subdivideTriangle)

THREE.ShapeUtils.triangulateShape is an external library call; it is modelled
as an opaque parameter returning none when it throws (the code catches the
throw) and an index-triple list otherwise. -/

abbrev Tri := V3 × V3 × V3

abbrev Triangulator := List (ℝ × ℝ) → Option (List (ℕ × ℕ × ℕ))

noncomputable section

/-- Removal of the closing duplicate point, modelling the isClosed check of
createFilledPolygon (compares both components of first and last point). -/
def stripClosing (coordinates : List (ℝ × ℝ)) : List (ℝ × ℝ) :=
  if coordinates.getD 0 (0, 0) = coordinates.getD (coordinates.length - 1) (0, 0) then
    coordinates.dropLast
  else coordinates

/-- Tangent-plane projection of the sphere points at their normalized
centroid, modelling the points2D computation of Globe.createFilledPolygon. -/
def projected2D (points3D : List V3) : List (ℝ × ℝ) :=
  let centroid := normalize3 ((1 / (points3D.length : ℝ)) • points3D.foldl (· + ·) 0)
  let refUp : V3 := if |centroid 1| < 0.99 then ![0, 1, 0] else ![1, 0, 0]
  let right := normalize3 (cross3 centroid refUp)
  let forward := normalize3 (cross3 right centroid)
  points3D.map fun p => (dot3 p right, dot3 p forward)

/-- Translation of Globe.createFilledPolygon up to and including the empty
triangulation guard: returns the planned triangle list handed to the
recursive subdivision, or none exactly where the code returns null. -/
def fillMeshPlan (tri : Triangulator) (radius : ℝ) (coordinates : List (ℝ × ℝ)) :
    Option (List Tri) :=
  if coordinates.length < 3 then none else
  let openCoords := stripClosing coordinates
  if openCoords.length < 3 then none else
  let points3D := coordsToVectors openCoords radius
  match tri (projected2D points3D) with
  | none => none
  | some triangles =>
      if triangles.length = 0 then none
      else some (triangles.map fun t =>
        (points3D.getD t.1 0, points3D.getD t.2.1 0, points3D.getD t.2.2 0))

/-- Midpoint of an edge re-projected onto the sphere, modelling
mid.addVectors(a, b).multiplyScalar(0.5).setLength(radius). -/
def sphMid (radius : ℝ) (a b : V3) : V3 := setLength3 ((1 / 2 : ℝ) • (a + b)) radius

end

/-- Big-step relation for Globe.subdivideTriangle.  The function recurses
without a structural measure, so it is embedded as the graph of the
recursion: Subdiv radius maxEdge a b c out holds exactly when the call
subdivideTriangle(a, b, c, radius, maxEdge, -) terminates emitting the
triangle list out.  The guards mirror the if / else-if / else chain. -/
inductive Subdiv (radius maxEdge : ℝ) : V3 → V3 → V3 → List Tri → Prop where
  | base {a b c : V3} :
      dist3 a b ≤ maxEdge → dist3 b c ≤ maxEdge → dist3 c a ≤ maxEdge →
      Subdiv radius maxEdge a b c [(a, b, c)]
  | splitAB {a b c : V3} {out1 out2 : List Tri} :
      ¬(dist3 a b ≤ maxEdge ∧ dist3 b c ≤ maxEdge ∧ dist3 c a ≤ maxEdge) →
      dist3 b c ≤ dist3 a b → dist3 c a ≤ dist3 a b →
      Subdiv radius maxEdge a (sphMid radius a b) c out1 →
      Subdiv radius maxEdge (sphMid radius a b) b c out2 →
      Subdiv radius maxEdge a b c (out1 ++ out2)
  | splitBC {a b c : V3} {out1 out2 : List Tri} :
      ¬(dist3 a b ≤ maxEdge ∧ dist3 b c ≤ maxEdge ∧ dist3 c a ≤ maxEdge) →
      ¬(dist3 b c ≤ dist3 a b ∧ dist3 c a ≤ dist3 a b) →
      dist3 a b ≤ dist3 b c → dist3 c a ≤ dist3 b c →
      Subdiv radius maxEdge a b (sphMid radius b c) out1 →
      Subdiv radius maxEdge a (sphMid radius b c) c out2 →
      Subdiv radius maxEdge a b c (out1 ++ out2)
  | splitCA {a b c : V3} {out1 out2 : List Tri} :
      ¬(dist3 a b ≤ maxEdge ∧ dist3 b c ≤ maxEdge ∧ dist3 c a ≤ maxEdge) →
      ¬(dist3 b c ≤ dist3 a b ∧ dist3 c a ≤ dist3 a b) →
      ¬(dist3 a b ≤ dist3 b c ∧ dist3 c a ≤ dist3 b c) →
      Subdiv radius maxEdge a b (sphMid radius c a) out1 →
      Subdiv radius maxEdge (sphMid radius c a) b c out2 →
      Subdiv radius maxEdge a b c (out1 ++ out2)

/-- Lifting of Subdiv to the triangle list handed over by the planner. -/
inductive SubdivList (radius maxEdge : ℝ) : List Tri → List Tri → Prop where
  | nil : SubdivList radius maxEdge [] []
  | cons {a b c : V3} {ts out out2 : List Tri} :
      Subdiv radius maxEdge a b c out →
      SubdivList radius maxEdge ts out2 →
      SubdivList radius maxEdge ((a, b, c) :: ts) (out ++ out2)

/-- Whole createFilledPolygon call: null on a failed plan, otherwise the
subdivided mesh. -/
inductive CreateFilledPolygon (tri : Triangulator) (radius maxEdge : ℝ)
    (coordinates : List (ℝ × ℝ)) : Option (List Tri) → Prop where
  | fail : fillMeshPlan tri radius coordinates = none →
      CreateFilledPolygon tri radius maxEdge coordinates none
  | ok {ts out : List Tri} : fillMeshPlan tri radius coordinates = some ts →
      SubdivList radius maxEdge ts out →
      CreateFilledPolygon tri radius maxEdge coordinates (some out)

/-- Per-ring loop of createCountryBorders / renderSubdivisions: each ring is
processed independently, collecting an optional fill mesh per ring. -/
inductive RingsFills (tri : Triangulator) (radius maxEdge : ℝ) :
    List (List (ℝ × ℝ)) → List (Option (List Tri)) → Prop where
  | nil : RingsFills tri radius maxEdge [] []
  | cons {ring : List (ℝ × ℝ)} {rs : List (List (ℝ × ℝ))}
      {res : Option (List Tri)} {os : List (Option (List Tri))} :
      CreateFilledPolygon tri radius maxEdge ring res →
      RingsFills tri radius maxEdge rs os →
      RingsFills tri radius maxEdge (ring :: rs) (res :: os)

/-! ## CountryOverlay: orientation engine -/

/-- GeoJSON geometry as consumed by the overlay (tagged Polygon or
MultiPolygon ring sets). -/
inductive Geometry where
  | polygon (coordinates : List (List (ℝ × ℝ)))
  | multiPolygon (coordinates : List (List (List (ℝ × ℝ))))

/-- GeoJSON feature; geometry may be absent (the show() guard). -/
structure Feature where
  geometry : Option Geometry

/-- Outer rings used by _computeCentroidDirection, show and the renderers:
coordinates[0] of a Polygon, p[0] of each MultiPolygon member. -/
def outerRings : Geometry → List (List (ℝ × ℝ))
  | .polygon cs => [cs.getD 0 []]
  | .multiPolygon cs => cs.map fun p => p.getD 0 []

noncomputable section

/-- Translation of CountryOverlay._computeCentroidDirection. -/
def computeCentroidDirection (g : Geometry) : V3 :=
  let pts := (outerRings g).flatten.map fun p => latLonToVector3 p.2 p.1 1
  if 0 < pts.length then normalize3 ((1 / (pts.length : ℝ)) • pts.foldl (· + ·) 0)
  else ![0, 0, 1]

/-- First candidate up vector of CountryOverlay._localFrame: the world up
axis minus its projection onto the forward direction. -/
def localUpRaw (dir : V3) : V3 := (![0, 1, 0] : V3) - dot3 ![0, 1, 0] dir • dir

/-- Up vector before normalization, with the pole fallback axis (0,0,1)
substituted when the projection of world up is degenerate. -/
def localUpSel (dir : V3) : V3 :=
  if normSq3 (localUpRaw dir) < 1 / 10 ^ 8 then
    (![0, 0, 1] : V3) - dot3 ![0, 0, 1] dir • dir
  else localUpRaw dir

/-- Normalized up vector of the tangent frame. -/
def localUp (dir : V3) : V3 := normalize3 (localUpSel dir)

/-- Right vector of the tangent frame: normalize(up x forward). -/
def localRight (dir : V3) : V3 := normalize3 (cross3 (localUp dir) dir)

/-- Translation of CountryOverlay._localFrame: {right, up, forward} tangent
frame at a point of the unit sphere, with the pole fallback axis; forward is
the direction itself. -/
def localFrame (dir : V3) : V3 × V3 × V3 := (localRight dir, localUp dir, dir)

abbrev M3 := Matrix (Fin 3) (Fin 3) ℝ

/-- THREE.Matrix4.makeBasis restricted to its rotation block: the columns are
the three given axes. -/
def makeBasis (x y z : V3) : M3 := Matrix.of fun i j => ![x, y, z] j i

/-- Basis matrix of the tangent frame at a direction, as built in update():
makeBasis(frame.right, frame.up, frame.forward). -/
def frameBasis (dir : V3) : M3 :=
  makeBasis (localFrame dir).1 (localFrame dir).2.1 (localFrame dir).2.2

/-- THREE.Matrix4.makeRotationAxis (Rodrigues rotation about an axis), with
c = cos angle, s = sin angle and t = 1 - c inlined. -/
def makeRotationAxis (axis : V3) (angle : ℝ) : M3 :=
  Matrix.of
    ![![(1 - Real.cos angle) * axis 0 * axis 0 + Real.cos angle,
        (1 - Real.cos angle) * axis 0 * axis 1 - Real.sin angle * axis 2,
        (1 - Real.cos angle) * axis 0 * axis 2 + Real.sin angle * axis 1],
      ![(1 - Real.cos angle) * axis 0 * axis 1 + Real.sin angle * axis 2,
        (1 - Real.cos angle) * axis 1 * axis 1 + Real.cos angle,
        (1 - Real.cos angle) * axis 1 * axis 2 - Real.sin angle * axis 0],
      ![(1 - Real.cos angle) * axis 0 * axis 2 - Real.sin angle * axis 1,
        (1 - Real.cos angle) * axis 1 * axis 2 + Real.sin angle * axis 0,
        (1 - Real.cos angle) * axis 2 * axis 2 + Real.cos angle]]

/-- Frame-mapping rotation of update(): tgtMat * srcMat⁻¹. -/
def frameRotation (centroidDir targetDir : V3) : M3 :=
  frameBasis targetDir * (frameBasis centroidDir)⁻¹

/-- Rotation computed by one update() pass for a slot: the frame-mapping
rotation, premultiplied by a rotation of -userRotation about cameraDir when
the shared twist is non-zero (lines 184-187 of CountryOverlay). -/
def updateRotation (centroidDir targetDir cameraDir : V3) (userRotation : ℝ) : M3 :=
  let rotMat := frameRotation centroidDir targetDir
  if userRotation ≠ 0 then makeRotationAxis cameraDir (-userRotation) * rotMat else rotMat

/-- Globe radius constant of CountryOverlay.js. -/
def overlayGlobeR : ℝ := 5

/-- Analytic ray-sphere intersection: smallest root of the quadratic, null on
negative discriminant or negative near root (spec name rayToSphereDir; the
code body is CountryOverlay._ndcToGlobeDir after setFromCamera). -/
def rayToSphereDir (ro rd : V3) (radius : ℝ) : Option V3 :=
  let b := dot3 ro rd
  let c := dot3 ro ro - radius * radius
  let disc := b * b - c
  if disc < 0 then none
  else
    let t := -b - Real.sqrt disc
    if t < 0 then none else some (normalize3 (ro + t • rd))

/-- Translation of CountryOverlay._ndcToGlobeDir, with the external camera
unprojection (Raycaster.setFromCamera) abstracted into the given ray. -/
def ndcToGlobeDir (ray : V3 × V3) : Option V3 := rayToSphereDir ray.1 ray.2 overlayGlobeR

end

/-- Overlay slot state: the group quaternion is modelled as the rotation
matrix it is set from, the group children as fill triangle lists and outline
polylines. -/
structure Slot where
  active : Bool
  country : Option Feature
  originalCentroidDir : Option V3
  displayNDC : Option (ℝ × ℝ)
  rotation : M3
  fills : List (List Tri)
  outlines : List (List V3)

noncomputable section

/-- Per-slot effect of CountryOverlay.update(): inactive slots (or slots with
no centroid) are untouched; active slots get their rotation recomputed from
the frozen centroid direction and the frame target direction.  The external
Raycaster.setFromCamera is the given ray function from NDC coordinates. -/
def updateSlot (cameraPos : V3) (ray : ℝ × ℝ → V3 × V3) (userRotation : ℝ)
    (slot : Slot) : Slot :=
  if slot.active then
    match slot.originalCentroidDir with
    | none => slot
    | some cdir =>
        let cameraDir := normalize3 cameraPos
        let targetDir :=
          match slot.displayNDC with
          | some ndc => (ndcToGlobeDir (ray ndc)).getD cameraDir
          | none => cameraDir
        { slot with rotation := updateRotation cdir targetDir cameraDir userRotation }
  else slot

/-- Slot state after clear(): meshes disposed, flags and references nulled,
quaternion reset to the identity. -/
def clearedSlot : Slot :=
  { active := false, country := none, originalCentroidDir := none,
    displayNDC := none, rotation := 1, fills := [], outlines := [] }

/-- Overlay radius used by show(). -/
def overlayRadius : ℝ := 5.005

/-- Translation of CountryOverlay._createPolygonOverlay: optional fill mesh
(skipped below 3 points or on empty/failed triangulation) plus the border
polyline (always added once the point count guards pass).  The overlay
triangulates raw (lon, lat) points, without the tangent-plane projection the
Globe uses, and does not subdivide. -/
def createPolygonOverlayM (tri : Triangulator) (coordinates : List (ℝ × ℝ)) :
    Option (List Tri) × Option (List V3) :=
  if coordinates.length < 3 then (none, none) else
  let openCoords := stripClosing coordinates
  if openCoords.length < 3 then (none, none) else
  let points3D := coordsToVectors openCoords overlayRadius
  let triangles := (tri openCoords).getD []
  let fill := if 0 < triangles.length then
      some (triangles.map fun t =>
        (points3D.getD t.1 0, points3D.getD t.2.1 0, points3D.getD t.2.2 0))
    else none
  (fill, some (coordsToVectors coordinates overlayRadius))

/-- Mesh building loop of show(): one _createPolygonOverlay call per outer
ring, meshes appended to the slot group. -/
def addOverlay (tri : Triangulator) (g : Geometry) (slot : Slot) : Slot :=
  (outerRings g).foldl
    (fun s ring =>
      let built := createPolygonOverlayM tri ring
      { s with fills := s.fills ++ built.1.toList,
               outlines := s.outlines ++ built.2.toList })
    slot

/-- Translation of CountryOverlay.show for one slot: clear, activate, freeze
the centroid direction (unless the feature has no geometry), build the
meshes, then run one update() immediately. -/
def showSlot (tri : Triangulator) (cameraPos : V3) (ray : ℝ × ℝ → V3 × V3)
    (userRotation : ℝ) (f : Feature) : Slot :=
  let s1 := { clearedSlot with country := some f, active := true }
  match f.geometry with
  | none => s1
  | some g =>
      let s2 := { s1 with originalCentroidDir := some (computeCentroidDirection g),
                          displayNDC := none }
      updateSlot cameraPos ray userRotation (addOverlay tri g s2)

end

/-! ## Helper lemmas -/

theorem stitchAux_of_ne_nil {α : Type} (arcs : List (List α)) (l : List ℤ)
    (acc : List α) (hacc : acc ≠ []) :
    stitchAux arcs l acc = acc ++ (l.map fun i => (resolveArc arcs i).drop 1).flatten := by
  induction l generalizing acc with
  | nil => simp [stitchAux]
  | cons i rest ih =>
      have hlen : 0 < acc.length := List.length_pos.mpr hacc
      simp only [stitchAux, if_pos hlen]
      rw [ih _ (fun h => hacc (List.append_eq_nil.mp h).1)]
      simp

theorem updateSlot_active (cameraPos : V3) (ray : ℝ × ℝ → V3 × V3) (tw : ℝ) (s : Slot) :
    (updateSlot cameraPos ray tw s).active = s.active ∧
    (updateSlot cameraPos ray tw s).country = s.country ∧
    (updateSlot cameraPos ray tw s).originalCentroidDir = s.originalCentroidDir ∧
    (updateSlot cameraPos ray tw s).displayNDC = s.displayNDC ∧
    (updateSlot cameraPos ray tw s).fills = s.fills ∧
    (updateSlot cameraPos ray tw s).outlines = s.outlines := by
  unfold updateSlot
  split
  · cases h2 : s.originalCentroidDir <;> simp [h2]
  · simp

theorem addOverlay_fields (tri : Triangulator) (g : Geometry) (s : Slot) :
    (addOverlay tri g s).active = s.active ∧
    (addOverlay tri g s).country = s.country ∧
    (addOverlay tri g s).originalCentroidDir = s.originalCentroidDir ∧
    (addOverlay tri g s).displayNDC = s.displayNDC ∧
    (addOverlay tri g s).rotation = s.rotation := by
  unfold addOverlay
  generalize outerRings g = rings
  induction rings generalizing s with
  | nil => simp
  | cons r rs ih => simpa using ih _

/-! ## Claim theorems -/

/-- C4: for every feature arc-index list whose referenced decoded arcs are
non-empty, the stitched ring is the in-order concatenation of the referenced
arcs (reversed for a negative index, first point dropped for every arc after
the first); a single negative index yields exactly the reverse of the
referenced decoded arc. -/
theorem c4_stitch_is_concat {α : Type} (arcIndices : List ℤ) (arcs : List (List α))
    (hne : ∀ i ∈ arcIndices, resolveArc arcs i ≠ []) :
    stitchArcs arcIndices arcs = stitchSpec arcIndices arcs ∧
      ∀ j : ℕ, stitchArcs [-(j : ℤ) - 1] arcs = (arcs.getD j []).reverse := by
  constructor
  · cases arcIndices with
    | nil => rfl
    | cons i rest =>
        have h1 : resolveArc arcs i ≠ [] := hne i (by simp)
        have step : stitchArcs (i :: rest) arcs = stitchAux arcs rest (resolveArc arcs i) := by
          simp [stitchArcs, stitchAux]
        rw [step, stitchAux_of_ne_nil arcs rest _ h1]
        simp [stitchSpec, Function.comp_def]
  · intro j
    have hneg : -(j : ℤ) - 1 < 0 := by omega
    have hres : resolveArc arcs (-(j : ℤ) - 1) = (arcs.getD j []).reverse := by
      have hidx : (-(-(j : ℤ) - 1) - 1).toNat = j := by omega
      unfold resolveArc
      rw [if_pos hneg, hidx]
    show stitchAux arcs [-(j : ℤ) - 1] [] = _
    simp [stitchAux, hres]

theorem c4_stitch_is_concat_witness :
    (∀ i ∈ ([0, -2] : List ℤ), resolveArc ([[1, 2], [3, 4]] : List (List ℕ)) i ≠ []) ∧
      stitchArcs [0, -2] ([[1, 2], [3, 4]] : List (List ℕ)) =
        stitchSpec [0, -2] ([[1, 2], [3, 4]] : List (List ℕ)) :=
  ⟨by decide, (c4_stitch_is_concat [0, -2] [[1, 2], [3, 4]] (by decide)).1⟩

/-- C3: with the intersection lists sorted by distance (the raycaster
contract), the pick decision returns no hit whenever some globe-sphere hit is
strictly closer than every feature hit (even though a feature hit exists),
and otherwise returns the label of a nearest feature hit; with no feature
hits it returns no hit. -/
theorem c3_picker_occluded {δ α : Type} [LinearOrder δ]
    (featureHits : List (δ × α)) (globeHits : List δ)
    (hf : List.Sorted (fun p q : δ × α => p.1 ≤ q.1) featureHits)
    (hg : List.Sorted (· ≤ ·) globeHits) :
    (featureHits = [] → pickTopmost featureHits globeHits = none) ∧
    ((∃ g ∈ globeHits, ∀ p ∈ featureHits, g < p.1) →
        pickTopmost featureHits globeHits = none) ∧
    (featureHits ≠ [] → (∀ g ∈ globeHits, ∃ p ∈ featureHits, p.1 ≤ g) →
        ∃ p ∈ featureHits, pickTopmost featureHits globeHits = some p.2 ∧
          ∀ q ∈ featureHits, p.1 ≤ q.1) := by
  refine ⟨fun h => by simp [h, pickTopmost], ?_, ?_⟩
  · rintro ⟨g, hgmem, hgall⟩
    cases featureHits with
    | nil => simp [pickTopmost]
    | cons p0 ps =>
        cases globeHits with
        | nil => cases hgmem
        | cons g0 gs =>
            have hg0 : g0 ≤ g := by
              rcases List.mem_cons.mp hgmem with h | h
              · exact h.ge
              · exact ((List.sorted_cons.mp hg).1 g h)
            have : g0 < p0.1 := lt_of_le_of_lt hg0 (hgall p0 (List.mem_cons_self _ _))
            simp [pickTopmost, this]
  · intro hne hall
    cases featureHits with
    | nil => exact absurd rfl hne
    | cons p0 ps =>
        refine ⟨p0, List.mem_cons_self _ _, ?_, ?_⟩
        · cases globeHits with
          | nil => simp [pickTopmost]
          | cons g0 gs =>
              rcases hall g0 (List.mem_cons_self _ _) with ⟨p, hpmem, hple⟩
              have hp0 : p0.1 ≤ p.1 := by
                rcases List.mem_cons.mp hpmem with h | h
                · exact h ▸ le_refl _
                · exact (List.sorted_cons.mp hf).1 p h
              have : ¬ g0 < p0.1 := not_lt.mpr (le_trans hp0 hple)
              simp [pickTopmost, this]
        · intro q hq
          rcases List.mem_cons.mp hq with h | h
          · exact h ▸ le_refl _
          · exact (List.sorted_cons.mp hf).1 q h

theorem c3_picker_occluded_witness :
    List.Sorted (fun p q : ℕ × ℕ => p.1 ≤ q.1) [(3, 7)] ∧
      List.Sorted (· ≤ ·) [2] ∧
      ((∃ g ∈ [2], ∀ p ∈ [((3 : ℕ), (7 : ℕ))], g < p.1) →
        pickTopmost [((3 : ℕ), (7 : ℕ))] [2] = none) :=
  ⟨by decide, by decide,
    (c3_picker_occluded [(3, 7)] [2] (by decide) (by decide)).2.1⟩

theorem normSq3_ray (ro rd : V3) (t : ℝ) :
    normSq3 (ro + t • rd) = normSq3 ro + 2 * t * dot3 ro rd + t ^ 2 * normSq3 rd := by
  simp only [normSq3, dot3]
  simp [Pi.add_apply, Pi.smul_apply, smul_eq_mul]
  ring

theorem normSq3_eq_one_of_norm3 {v : V3} (h : norm3 v = 1) : normSq3 v = 1 := by
  have h0 : 0 ≤ normSq3 v := by
    simp only [normSq3, dot3]
    nlinarith [sq_nonneg (v 0), sq_nonneg (v 1), sq_nonneg (v 2)]
  have := Real.sq_sqrt h0
  rw [show Real.sqrt (normSq3 v) = 1 from h] at this
  nlinarith [this]

/-- C7: the analytic ray-sphere intersection returns the normalized point at
the smallest root of the quadratic whenever the discriminant is non-negative
and that root is non-negative — and that root is then the smallest
non-negative root of the sphere equation; it returns no hit exactly when the
discriminant is negative or the smallest root is negative, in particular
(settling the inside-the-sphere case) it returns no hit whenever the near
root is negative, even if the far root is non-negative. -/
theorem c7_ray_sphere_root (ro rd : V3) (radius b c disc t0 : ℝ)
    (hrd : norm3 rd = 1)
    (hb : b = dot3 ro rd) (hc : c = dot3 ro ro - radius * radius)
    (hdisc : disc = b * b - c) (ht0 : t0 = -b - Real.sqrt disc) :
    (rayToSphereDir ro rd radius = none ↔ disc < 0 ∨ t0 < 0) ∧
    (0 ≤ disc → 0 ≤ t0 →
        rayToSphereDir ro rd radius = some (normalize3 (ro + t0 • rd)) ∧
        normSq3 (ro + t0 • rd) = radius * radius ∧
        (∀ t : ℝ, 0 ≤ t → normSq3 (ro + t • rd) = radius * radius → t0 ≤ t)) ∧
    (disc < 0 → ∀ t : ℝ, normSq3 (ro + t • rd) ≠ radius * radius) ∧
    (0 ≤ disc → t0 < 0 → rayToSphereDir ro rd radius = none) := by
  have hunit : normSq3 rd = 1 := normSq3_eq_one_of_norm3 hrd
  have hquad : ∀ t : ℝ, normSq3 (ro + t • rd) = radius * radius ↔ (t + b) ^ 2 = disc := by
    intro t
    rw [normSq3_ray, hunit]
    have hn : normSq3 ro = dot3 ro ro := rfl
    rw [hn]
    constructor
    · intro h
      rw [hdisc, hb, hc]
      linear_combination h
    · intro h
      rw [hdisc, hb, hc] at h
      linear_combination h
  have hkey : rayToSphereDir ro rd radius =
      if disc < 0 then none else if t0 < 0 then none
      else some (normalize3 (ro + t0 • rd)) := by
    simp only [rayToSphereDir]
    rw [← hb, ← hc, ← hdisc, ← ht0]
  refine ⟨?_, ?_, ?_, ?_⟩
  · rw [hkey]
    constructor
    · intro h
      by_contra hcon
      push_neg at hcon
      rw [if_neg (not_lt.mpr hcon.1), if_neg (not_lt.mpr hcon.2)] at h
      exact Option.some_ne_none _ h
    · rintro (h | h)
      · rw [if_pos h]
      · by_cases h1 : disc < 0
        · rw [if_pos h1]
        · rw [if_neg h1, if_pos h]
  · intro h1 h2
    refine ⟨?_, ?_, ?_⟩
    · rw [hkey, if_neg (not_lt.mpr h1), if_neg (not_lt.mpr h2)]
    · rw [hquad t0, ht0]
      have hs := Real.sq_sqrt h1
      linear_combination hs
    · intro t _ hroot
      rw [hquad t] at hroot
      have habs : -Real.sqrt disc ≤ t + b := by
        have h2 : Real.sqrt disc = |t + b| := by
          rw [← hroot, Real.sqrt_sq_eq_abs]
        rw [h2]
        exact neg_abs_le _
      rw [ht0]
      linarith
  · intro h1 t hroot
    rw [hquad t] at hroot
    nlinarith [sq_nonneg (t + b)]
  · intro h1 h2
    rw [hkey, if_neg (not_lt.mpr h1), if_pos h2]

theorem c7_ray_sphere_root_witness :
    norm3 ![5 / 13, 0, -12 / 13] = 1 ∧
      rayToSphereDir ![0, 0, 13] ![5 / 13, 0, -12 / 13] 5 =
        some (normalize3 ((![0, 0, 13] : V3) + (12 : ℝ) • ![5 / 13, 0, -12 / 13])) := by
  have hrd : norm3 ![(5 : ℝ) / 13, 0, -12 / 13] = 1 := by
    unfold norm3 normSq3 dot3
    norm_num [Real.sqrt_eq_one]
  have hb : (-12 : ℝ) = dot3 ![0, 0, 13] ![5 / 13, 0, -12 / 13] := by
    unfold dot3; norm_num
  have hc : (144 : ℝ) = dot3 ![0, 0, 13] ![0, 0, 13] - 5 * 5 := by
    unfold dot3; norm_num
  have hdisc : (0 : ℝ) = -12 * -12 - 144 := by norm_num
  have ht0 : (12 : ℝ) = -(-12) - Real.sqrt 0 := by
    rw [Real.sqrt_zero]; norm_num
  exact ⟨hrd,
    ((c7_ray_sphere_root ![0, 0, 13] ![5 / 13, 0, -12 / 13] 5 (-12) 144 0 12
        hrd hb hc hdisc ht0).2.1 le_rfl (by norm_num)).1⟩

/-- C9: one update() pass changes only the applied rotation of a slot: the
active flag, the source feature, the frozen centroid direction, the stored
screen coordinate and the mesh vertex data are all unchanged; the new
rotation does not depend on the previous rotation (recomputed from scratch,
never accumulated); and the centroid direction of a slot is the one frozen
by the show call that activated it. -/
theorem c9_update_rotation_only (cameraPos : V3) (ray : ℝ × ℝ → V3 × V3)
    (userRotation : ℝ) (slot : Slot) :
    ((updateSlot cameraPos ray userRotation slot).active = slot.active ∧
     (updateSlot cameraPos ray userRotation slot).country = slot.country ∧
     (updateSlot cameraPos ray userRotation slot).originalCentroidDir =
       slot.originalCentroidDir ∧
     (updateSlot cameraPos ray userRotation slot).displayNDC = slot.displayNDC ∧
     (updateSlot cameraPos ray userRotation slot).fills = slot.fills ∧
     (updateSlot cameraPos ray userRotation slot).outlines = slot.outlines) ∧
    (∀ (R : M3) (cdir : V3), slot.active = true →
        slot.originalCentroidDir = some cdir →
        (updateSlot cameraPos ray userRotation
            { slot with rotation := R }).rotation =
          (updateSlot cameraPos ray userRotation slot).rotation) ∧
    (∀ (tri : Triangulator) (f : Feature),
        (showSlot tri cameraPos ray userRotation f).originalCentroidDir =
          f.geometry.map computeCentroidDirection) := by
  refine ⟨updateSlot_active cameraPos ray userRotation slot, ?_, ?_⟩
  · intro R cdir ha hc
    unfold updateSlot
    simp [ha, hc]
  · intro tri f
    unfold showSlot
    cases hg : f.geometry with
    | none => simp [clearedSlot]
    | some g =>
        rw [(updateSlot_active cameraPos ray userRotation _).2.2.1]
        rw [(addOverlay_fields tri g _).2.2.1]
        simp

/-- C10: in screen-fixed mode, on a frame where the ray through the stored
screen coordinate misses the globe sphere, update() silently substitutes the
camera-to-origin direction as that frame's target direction, leaves the
stored screen coordinate in place, and a later frame whose ray hits the
sphere again uses the re-projected direction. -/
theorem c10_screen_fixed_miss (cameraPos : V3) (ray : ℝ × ℝ → V3 × V3) (tw : ℝ)
    (slot : Slot) (cdir : V3) (n : ℝ × ℝ)
    (ha : slot.active = true) (hc : slot.originalCentroidDir = some cdir)
    (hn : slot.displayNDC = some n) (hmiss : ndcToGlobeDir (ray n) = none) :
    (updateSlot cameraPos ray tw slot).rotation =
        updateRotation cdir (normalize3 cameraPos) (normalize3 cameraPos) tw ∧
    (updateSlot cameraPos ray tw slot).displayNDC = some n ∧
    (∀ (cameraPos2 : V3) (ray2 : ℝ × ℝ → V3 × V3) (tw2 : ℝ) (t2 : V3),
        ndcToGlobeDir (ray2 n) = some t2 →
        (updateSlot cameraPos2 ray2 tw2 (updateSlot cameraPos ray tw slot)).rotation =
          updateRotation cdir t2 (normalize3 cameraPos2) tw2) := by
  have hstep : updateSlot cameraPos ray tw slot =
      { slot with rotation :=
          updateRotation cdir (normalize3 cameraPos) (normalize3 cameraPos) tw } := by
    unfold updateSlot
    simp [ha, hc, hn, hmiss]
  refine ⟨by rw [hstep], by rw [hstep]; exact hn, ?_⟩
  intro cameraPos2 ray2 tw2 t2 hhit
  rw [hstep]
  unfold updateSlot
  simp [ha, hc, hn, hhit]

theorem c10_screen_fixed_miss_witness :
    (let slot0 : Slot :=
      { active := true, country := none, originalCentroidDir := some ![0, 0, 1],
        displayNDC := some (0, 0), rotation := 1, fills := [], outlines := [] };
     let ray1 : ℝ × ℝ → V3 × V3 := fun _ => (![0, 0, 15], ![1, 0, 0]);
     ndcToGlobeDir (ray1 (0, 0)) = none ∧
       (updateSlot ![0, 0, 15] ray1 0 slot0).rotation =
         updateRotation ![0, 0, 1] (normalize3 ![0, 0, 15]) (normalize3 ![0, 0, 15]) 0) := by
  intro slot0 ray1
  have hmiss : ndcToGlobeDir (ray1 (0, 0)) = none := by
    show rayToSphereDir ![0, 0, 15] ![1, 0, 0] overlayGlobeR = none
    unfold rayToSphereDir overlayGlobeR dot3
    norm_num
  exact ⟨hmiss,
    (c10_screen_fixed_miss ![0, 0, 15] ray1 0 slot0 ![0, 0, 1] (0, 0)
      rfl rfl rfl hmiss).1⟩

theorem c9_update_rotation_only_witness :
    (let slotW : Slot :=
      { active := true, country := none, originalCentroidDir := some ![0, 1, 0],
        displayNDC := none, rotation := 1, fills := [], outlines := [] };
     (updateSlot ![0, 0, 9] (fun _ => (0, 0)) 0 { slotW with rotation := 0 }).rotation =
       (updateSlot ![0, 0, 9] (fun _ => (0, 0)) 0 slotW).rotation) := by
  intro slotW
  exact (c9_update_rotation_only ![0, 0, 9] (fun _ => (0, 0)) 0 slotW).2.1 0 ![0, 1, 0] rfl rfl

/-! ## Norm facts for the sphere invariants -/

theorem normSq3_nonneg (v : V3) : 0 ≤ normSq3 v := by
  unfold normSq3 dot3
  nlinarith [mul_self_nonneg (v 0), mul_self_nonneg (v 1), mul_self_nonneg (v 2)]

theorem norm3_nonneg (v : V3) : 0 ≤ norm3 v := Real.sqrt_nonneg _

theorem norm3_zero : norm3 (0 : V3) = 0 := by
  unfold norm3 normSq3 dot3
  simp

theorem norm3_eq_zero {v : V3} (h : norm3 v = 0) : v = 0 := by
  unfold norm3 at h
  have hsq : normSq3 v = 0 := by
    have := Real.sqrt_eq_zero (normSq3_nonneg v) |>.mp h
    exact this
  unfold normSq3 dot3 at hsq
  have h0 : v 0 * v 0 = 0 := by
    nlinarith [mul_self_nonneg (v 0), mul_self_nonneg (v 1), mul_self_nonneg (v 2)]
  have h1 : v 1 * v 1 = 0 := by
    nlinarith [mul_self_nonneg (v 0), mul_self_nonneg (v 1), mul_self_nonneg (v 2)]
  have h2 : v 2 * v 2 = 0 := by
    nlinarith [mul_self_nonneg (v 0), mul_self_nonneg (v 1), mul_self_nonneg (v 2)]
  funext i
  fin_cases i
  · simpa using mul_self_eq_zero.mp h0
  · simpa using mul_self_eq_zero.mp h1
  · simpa using mul_self_eq_zero.mp h2

theorem norm3_smul (t : ℝ) (v : V3) : norm3 (t • v) = |t| * norm3 v := by
  unfold norm3 normSq3 dot3
  have h : (t • v) 0 * ((t • v) 0) + (t • v) 1 * ((t • v) 1) + (t • v) 2 * ((t • v) 2) =
      t ^ 2 * (v 0 * v 0 + v 1 * v 1 + v 2 * v 2) := by
    simp [Pi.smul_apply, smul_eq_mul]
    ring
  rw [h, Real.sqrt_mul (sq_nonneg t), Real.sqrt_sq_eq_abs]

theorem norm3_neg (v : V3) : norm3 (-v) = norm3 v := by
  unfold norm3 normSq3 dot3
  congr 1
  simp only [Pi.neg_apply]
  ring

theorem setLength3_zero (l : ℝ) : setLength3 (0 : V3) l = 0 := by
  unfold setLength3 normalize3
  simp

theorem norm3_setLength {v : V3} {l : ℝ} (hl : 0 ≤ l) (hv : v ≠ 0) :
    norm3 (setLength3 v l) = l := by
  unfold setLength3 normalize3
  rw [smul_smul, norm3_smul]
  have hnv : norm3 v ≠ 0 := fun h => hv (norm3_eq_zero h)
  have hpos : 0 < norm3 v := lt_of_le_of_ne (norm3_nonneg v) (Ne.symm hnv)
  rw [abs_of_nonneg (by positivity)]
  field_simp

/-- Midpoint re-projection: either the midpoint lands on the sphere, or the
split edge endpoints were exactly opposite and the midpoint degenerates to
the zero vector. -/
theorem sphMid_cases {radius : ℝ} (hr : 0 < radius) (a b : V3) :
    norm3 (sphMid radius a b) = radius ∨ (sphMid radius a b = 0 ∧ a + b = 0) := by
  by_cases h : a + b = 0
  · right
    refine ⟨?_, h⟩
    unfold sphMid
    rw [h, smul_zero, setLength3_zero]
  · left
    apply norm3_setLength hr.le
    intro hc
    exact h (by simpa using (smul_eq_zero.mp hc).resolve_left (by norm_num))

theorem dist3_zero_left (v : V3) : dist3 0 v = norm3 v := by
  unfold dist3
  rw [zero_sub, norm3_neg]

theorem dist3_zero_right (v : V3) : dist3 v 0 = norm3 v := by
  unfold dist3
  rw [sub_zero]

theorem v3c0 (a b c : ℝ) : (![a, b, c] : V3) 0 = a := rfl

theorem v3c1 (a b c : ℝ) : (![a, b, c] : V3) 1 = b := rfl

theorem v3c2 (a b c : ℝ) : (![a, b, c] : V3) 2 = c := rfl

theorem norm3_latLonToVector3 (lat lon radius : ℝ) (hr : 0 ≤ radius) :
    norm3 (latLonToVector3 lat lon radius) = radius := by
  unfold latLonToVector3 norm3 normSq3 dot3
  simp only [v3c0, v3c1, v3c2]
  have hphi := Real.sin_sq_add_cos_sq ((90 - lat) * (Real.pi / 180))
  have hth := Real.sin_sq_add_cos_sq ((lon + 180) * (Real.pi / 180))
  rw [show -radius * Real.sin ((90 - lat) * (Real.pi / 180)) *
        Real.cos ((lon + 180) * (Real.pi / 180)) *
        (-radius * Real.sin ((90 - lat) * (Real.pi / 180)) *
          Real.cos ((lon + 180) * (Real.pi / 180))) +
      radius * Real.cos ((90 - lat) * (Real.pi / 180)) *
        (radius * Real.cos ((90 - lat) * (Real.pi / 180))) +
      radius * Real.sin ((90 - lat) * (Real.pi / 180)) *
        Real.sin ((lon + 180) * (Real.pi / 180)) *
        (radius * Real.sin ((90 - lat) * (Real.pi / 180)) *
          Real.sin ((lon + 180) * (Real.pi / 180))) = radius ^ 2 from by
    linear_combination (radius ^ 2 * Real.sin ((90 - lat) * (Real.pi / 180)) ^ 2) * hth +
      radius ^ 2 * hphi]
  exact Real.sqrt_sq hr

theorem opp_norm3 {radius : ℝ} {u v : V3} (h : u + v = 0) (hu : norm3 u = radius) :
    norm3 v = radius := by
  rw [show v = -u from eq_neg_of_add_eq_zero_right h, norm3_neg]
  exact hu

theorem opp_zero3 {u v : V3} (h : u + v = 0) (hu : u = 0) : v = 0 := by
  rw [show v = -u from eq_neg_of_add_eq_zero_right h, hu, neg_zero]

theorem base_all_on {radius maxEdge : ℝ} (hr : 0 < radius) (hme : maxEdge < radius)
    {a b c : V3}
    (h1 : dist3 a b ≤ maxEdge) (h2 : dist3 b c ≤ maxEdge) (h3 : dist3 c a ≤ maxEdge)
    (ha : norm3 a = radius ∨ a = 0) (hb : norm3 b = radius ∨ b = 0)
    (hc : norm3 c = radius ∨ c = 0)
    (hw : norm3 a = radius ∨ norm3 b = radius ∨ norm3 c = radius) :
    norm3 a = radius ∧ norm3 b = radius ∧ norm3 c = radius := by
  have hnz : ∀ v : V3, v = 0 → norm3 v = radius → False := by
    intro v hv hn
    rw [hv, norm3_zero] at hn
    linarith
  have hA : norm3 a = radius := by
    rcases ha with h | h
    · exact h
    · exfalso
      rcases hw with hw | hw | hw
      · exact hnz a h hw
      · rw [h] at h1
        rw [dist3_zero_left] at h1
        linarith [h1, hw.ge, hw.le]
      · rw [h] at h3
        rw [dist3_zero_right] at h3
        linarith [h3, hw.ge, hw.le]
  have hB : norm3 b = radius := by
    rcases hb with h | h
    · exact h
    · exfalso
      rw [h, dist3_zero_right] at h1
      linarith [h1, hA.ge, hA.le]
  have hC : norm3 c = radius := by
    rcases hc with h | h
    · exact h
    · exfalso
      rw [h, dist3_zero_left] at h3
      linarith [h3, hA.ge, hA.le]
  exact ⟨hA, hB, hC⟩

theorem subdiv_on_sphere_aux {radius maxEdge : ℝ} (hr : 0 < radius) (hme : maxEdge < radius) :
    ∀ {a b c : V3} {out : List Tri}, Subdiv radius maxEdge a b c out →
      (norm3 a = radius ∨ a = 0) → (norm3 b = radius ∨ b = 0) →
      (norm3 c = radius ∨ c = 0) →
      (norm3 a = radius ∨ norm3 b = radius ∨ norm3 c = radius) →
      ∀ t ∈ out, norm3 t.1 = radius ∧ norm3 t.2.1 = radius ∧ norm3 t.2.2 = radius := by
  intro a b c out h
  induction h with
  | base h1 h2 h3 =>
      rename_i a b c
      intro ha hb hc hw t ht
      simp only [List.mem_singleton] at ht
      subst ht
      exact base_all_on hr hme h1 h2 h3 ha hb hc hw
  | splitAB hne hg1 hg2 hs1 hs2 ih1 ih2 =>
      rename_i a b c out1 out2
      intro ha hb hc hw t ht
      rcases sphMid_cases hr a b with hm | ⟨hm0, hab⟩
      · have honm : norm3 (sphMid radius a b) = radius ∨ sphMid radius a b = 0 := Or.inl hm
        rcases List.mem_append.mp ht with h | h
        · exact ih1 ha honm hc (Or.inr (Or.inl hm)) t h
        · exact ih2 honm hb hc (Or.inl hm) t h
      · have honm : norm3 (sphMid radius a b) = radius ∨ sphMid radius a b = 0 := Or.inr hm0
        by_cases hA : norm3 a = radius
        · have hB : norm3 b = radius := opp_norm3 hab hA
          rcases List.mem_append.mp ht with h | h
          · exact ih1 ha honm hc (Or.inl hA) t h
          · exact ih2 honm hb hc (Or.inr (Or.inl hB)) t h
        · have ha0 : a = 0 := ha.resolve_left hA
          have hb0 : b = 0 := opp_zero3 hab ha0
          have hC : norm3 c = radius := by
            rcases hw with hw | hw | hw
            · exact absurd hw hA
            · rw [hb0, norm3_zero] at hw
              exact absurd hw.symm (by linarith)
            · exact hw
          rcases List.mem_append.mp ht with h | h
          · exact ih1 ha honm hc (Or.inr (Or.inr hC)) t h
          · exact ih2 honm hb hc (Or.inr (Or.inr hC)) t h
  | splitBC hne hg1 hg2 hg3 hs1 hs2 ih1 ih2 =>
      rename_i a b c out1 out2
      intro ha hb hc hw t ht
      rcases sphMid_cases hr b c with hm | ⟨hm0, hbc⟩
      · have honm : norm3 (sphMid radius b c) = radius ∨ sphMid radius b c = 0 := Or.inl hm
        rcases List.mem_append.mp ht with h | h
        · exact ih1 ha hb honm (Or.inr (Or.inr hm)) t h
        · exact ih2 ha honm hc (Or.inr (Or.inl hm)) t h
      · have honm : norm3 (sphMid radius b c) = radius ∨ sphMid radius b c = 0 := Or.inr hm0
        by_cases hB : norm3 b = radius
        · have hC : norm3 c = radius := opp_norm3 hbc hB
          rcases List.mem_append.mp ht with h | h
          · exact ih1 ha hb honm (Or.inr (Or.inl hB)) t h
          · exact ih2 ha honm hc (Or.inr (Or.inr hC)) t h
        · have hb0 : b = 0 := hb.resolve_left hB
          have hc0 : c = 0 := opp_zero3 hbc hb0
          have hA : norm3 a = radius := by
            rcases hw with hw | hw | hw
            · exact hw
            · exact absurd hw hB
            · rw [hc0, norm3_zero] at hw
              exact absurd hw.symm (by linarith)
          rcases List.mem_append.mp ht with h | h
          · exact ih1 ha hb honm (Or.inl hA) t h
          · exact ih2 ha honm hc (Or.inl hA) t h
  | splitCA hne hg1 hg2 hs1 hs2 ih1 ih2 =>
      rename_i a b c out1 out2
      intro ha hb hc hw t ht
      rcases sphMid_cases hr c a with hm | ⟨hm0, hca⟩
      · have honm : norm3 (sphMid radius c a) = radius ∨ sphMid radius c a = 0 := Or.inl hm
        rcases List.mem_append.mp ht with h | h
        · exact ih1 ha hb honm (Or.inr (Or.inr hm)) t h
        · exact ih2 honm hb hc (Or.inl hm) t h
      · have honm : norm3 (sphMid radius c a) = radius ∨ sphMid radius c a = 0 := Or.inr hm0
        by_cases hC : norm3 c = radius
        · have hA : norm3 a = radius := opp_norm3 hca hC
          rcases List.mem_append.mp ht with h | h
          · exact ih1 ha hb honm (Or.inl hA) t h
          · exact ih2 honm hb hc (Or.inr (Or.inr hC)) t h
        · have hc0 : c = 0 := hc.resolve_left hC
          have ha0 : a = 0 := opp_zero3 hca hc0
          have hB : norm3 b = radius := by
            rcases hw with hw | hw | hw
            · rw [ha0, norm3_zero] at hw
              exact absurd hw.symm (by linarith)
            · exact hw
            · exact absurd hw hC
          rcases List.mem_append.mp ht with h | h
          · exact ih1 ha hb honm (Or.inr (Or.inl hB)) t h
          · exact ih2 honm hb hc (Or.inr (Or.inl hB)) t h

/-- C6: every vertex of a produced fill mesh lies on the sphere of the target
radius: the original ring vertices are latLonToVector3 images, whose
magnitude is the radius for every in-range latitude and longitude, and the
subdivision re-scales every midpoint to the radius, so a triangle mesh whose
input vertices are on the sphere only ever emits on-sphere vertices (for the
thresholds the code uses, which are below the radius). -/
theorem c6_mesh_vertices_on_sphere :
    (∀ lat lon radius : ℝ, -90 ≤ lat → lat ≤ 90 → -180 ≤ lon → lon ≤ 180 →
        0 ≤ radius → norm3 (latLonToVector3 lat lon radius) = radius) ∧
    (∀ radius maxEdge : ℝ, 0 < radius → maxEdge < radius →
      ∀ (a b c : V3) (out : List Tri), Subdiv radius maxEdge a b c out →
        norm3 a = radius → norm3 b = radius → norm3 c = radius →
        ∀ t ∈ out, norm3 t.1 = radius ∧ norm3 t.2.1 = radius ∧ norm3 t.2.2 = radius) := by
  constructor
  · intro lat lon radius _ _ _ _ hr
    exact norm3_latLonToVector3 lat lon radius hr
  · intro radius maxEdge hr hme a b c out h ha hb hc
    exact subdiv_on_sphere_aux hr hme h (Or.inl ha) (Or.inl hb) (Or.inl hc) (Or.inl ha)

theorem c6_mesh_vertices_on_sphere_witness :
    norm3 (latLonToVector3 0 0 1) = 1 ∧
      (∀ t ∈ [((![5, 0, 0] : V3), (![5, 0, 0] : V3), (![5, 0, 0] : V3))],
        norm3 t.1 = 5 ∧ norm3 t.2.1 = 5 ∧ norm3 t.2.2 = 5) := by
  have h5 : norm3 (![5, 0, 0] : V3) = 5 := by
    unfold norm3 normSq3 dot3
    simp only [v3c0, v3c1, v3c2]
    rw [show (5 : ℝ) * 5 + 0 * 0 + 0 * 0 = 5 ^ 2 by norm_num]
    exact Real.sqrt_sq (by norm_num)
  have hd : dist3 (![5, 0, 0] : V3) ![5, 0, 0] ≤ 1 / 2 := by
    unfold dist3
    rw [sub_self, norm3_zero]
    norm_num
  have hsub : Subdiv 5 (1 / 2) ![5, 0, 0] ![5, 0, 0] ![5, 0, 0]
      [((![5, 0, 0] : V3), (![5, 0, 0] : V3), (![5, 0, 0] : V3))] :=
    Subdiv.base hd hd hd
  exact ⟨c6_mesh_vertices_on_sphere.1 0 0 1 (by norm_num) (by norm_num) (by norm_num)
      (by norm_num) (by norm_num),
    c6_mesh_vertices_on_sphere.2 5 (1 / 2) (by norm_num) (by norm_num) _ _ _ _ hsub h5 h5 h5⟩

theorem sqrt_eq_of_sq {x y : ℝ} (hy : 0 ≤ y) (h : x = y ^ 2) : Real.sqrt x = y := by
  rw [h]
  exact Real.sqrt_sq hy

/-- C8: a ring that is degenerate after stripping the closing duplicate
(fewer than 3 points), or whose 2D projection makes the triangulator throw
(modelled: return none) or return an empty triangle list, produces no fill
mesh; the whole createFilledPolygon call then returns exactly null (the
try/catch keeps the throw from escaping, which the total model reflects),
and the per-ring loop keeps processing the remaining rings unchanged; the
overlay mesh builder likewise skips only the fill and still builds the
outline polyline. -/
theorem c8_degenerate_ring_skipped :
    (∀ (tri : Triangulator) (radius : ℝ) (coordinates : List (ℝ × ℝ)),
        (stripClosing coordinates).length < 3 →
        fillMeshPlan tri radius coordinates = none) ∧
    (∀ (tri : Triangulator) (radius : ℝ) (coordinates : List (ℝ × ℝ)),
        tri (projected2D (coordsToVectors (stripClosing coordinates) radius)) = none ∨
          tri (projected2D (coordsToVectors (stripClosing coordinates) radius)) = some [] →
        fillMeshPlan tri radius coordinates = none) ∧
    (∀ (tri : Triangulator) (radius maxEdge : ℝ) (coordinates : List (ℝ × ℝ))
        (res : Option (List Tri)),
        fillMeshPlan tri radius coordinates = none →
        (CreateFilledPolygon tri radius maxEdge coordinates res ↔ res = none)) ∧
    (∀ (tri : Triangulator) (radius maxEdge : ℝ) (bad : List (ℝ × ℝ))
        (rs : List (List (ℝ × ℝ))) (os : List (Option (List Tri))),
        fillMeshPlan tri radius bad = none →
        (RingsFills tri radius maxEdge (bad :: rs) os ↔
          ∃ os2, os = none :: os2 ∧ RingsFills tri radius maxEdge rs os2)) ∧
    (∀ (tri : Triangulator) (coordinates : List (ℝ × ℝ)),
        ¬ coordinates.length < 3 → ¬ (stripClosing coordinates).length < 3 →
        tri (stripClosing coordinates) = none →
        createPolygonOverlayM tri coordinates =
          (none, some (coordsToVectors coordinates overlayRadius))) := by
  refine ⟨?_, ?_, ?_, ?_, ?_⟩
  · intro tri radius coordinates hs
    unfold fillMeshPlan
    by_cases h3 : coordinates.length < 3
    · rw [if_pos h3]
    · rw [if_neg h3, if_pos hs]
  · intro tri radius coordinates htri
    unfold fillMeshPlan
    by_cases h3 : coordinates.length < 3
    · rw [if_pos h3]
    · rw [if_neg h3]
      by_cases hs : (stripClosing coordinates).length < 3
      · rw [if_pos hs]
      · rw [if_neg hs]
        rcases htri with h | h
        · simp [h]
        · simp [h]
  · intro tri radius maxEdge coordinates res hplan
    constructor
    · intro h
      cases h with
      | fail _ => rfl
      | ok hp _ => rw [hplan] at hp; cases hp
    · rintro rfl
      exact CreateFilledPolygon.fail hplan
  · intro tri radius maxEdge bad rs os hplan
    constructor
    · intro h
      cases h with
      | cons hcfp hrest =>
          rename_i res os2
          have : res = none := by
            cases hcfp with
            | fail _ => rfl
            | ok hp _ => rw [hplan] at hp; cases hp
          subst this
          exact ⟨os2, rfl, hrest⟩
    · rintro ⟨os2, rfl, hrest⟩
      exact RingsFills.cons (CreateFilledPolygon.fail hplan) hrest
  · intro tri coordinates h3 hs htri
    unfold createPolygonOverlayM
    rw [if_neg h3, if_neg hs, htri]
    simp

theorem c8_degenerate_ring_skipped_witness :
    (stripClosing ([] : List (ℝ × ℝ))).length < 3 ∧
      fillMeshPlan (fun _ => none) 5 ([] : List (ℝ × ℝ)) = none := by
  have h : (stripClosing ([] : List (ℝ × ℝ))).length < 3 := by
    unfold stripClosing
    simp
  exact ⟨h, c8_degenerate_ring_skipped.1 (fun _ => none) 5 [] h⟩

/-! ## Orientation rotation: general properties and the twist-axis analysis -/

open scoped Matrix

theorem frameBasis_col2 (d : V3) (i : Fin 3) : frameBasis d i 2 = d i := by
  unfold frameBasis makeBasis localFrame
  simp [Matrix.of_apply]

theorem frameBasis_mulVec_e2 (d : V3) : (frameBasis d).mulVec ![0, 0, 1] = d := by
  funext i
  rw [Matrix.mulVec, Matrix.dotProduct, Fin.sum_univ_three]
  simp only [v3c0, v3c1, v3c2, frameBasis_col2]
  ring

theorem frameRotation_maps_centroid {cdir tdir : V3}
    (hS : (frameBasis cdir)ᵀ * frameBasis cdir = 1) :
    (frameRotation cdir tdir).mulVec cdir = tdir := by
  unfold frameRotation
  rw [Matrix.inv_eq_left_inv hS]
  have h1 : (frameBasis cdir)ᵀ.mulVec cdir = ![0, 0, 1] := by
    have h2 : (frameBasis cdir)ᵀ.mulVec ((frameBasis cdir).mulVec ![0, 0, 1]) =
        ![0, 0, 1] := by
      rw [Matrix.mulVec_mulVec, hS, Matrix.one_mulVec]
    rwa [frameBasis_mulVec_e2] at h2
  rw [← Matrix.mulVec_mulVec, h1, frameBasis_mulVec_e2]

theorem frameBasis_unit {d : V3} (h : (frameBasis d)ᵀ * frameBasis d = 1) :
    dot3 d d = 1 := by
  have h22 := congrFun (congrFun h 2) 2
  rw [Matrix.mul_apply, Fin.sum_univ_three] at h22
  simp only [Matrix.transpose_apply, frameBasis_col2, Matrix.one_apply_eq] at h22
  unfold dot3
  linarith [h22]

theorem makeRotationAxis_fix (axis : V3) (angle : ℝ) (h : dot3 axis axis = 1) :
    (makeRotationAxis axis angle).mulVec axis = axis := by
  unfold dot3 at h
  funext i
  rw [Matrix.mulVec, Matrix.dotProduct, Fin.sum_univ_three]
  unfold makeRotationAxis
  fin_cases i
  · simp only [Matrix.of_apply]
    norm_num
    change _ = axis 0 at *
    linear_combination ((1 - Real.cos angle) * axis 0) * h
  · simp only [Matrix.of_apply]
    norm_num
    change _ = axis 1 at *
    linear_combination ((1 - Real.cos angle) * axis 1) * h
  · simp only [Matrix.of_apply]
    norm_num
    change _ = axis 2 at *
    linear_combination ((1 - Real.cos angle) * axis 2) * h

/-- C1 (amended): the rotation computed by update() maps the frozen centroid
direction onto the frame's target direction, given that both tangent frames
are orthonormal, provided the shared twist is zero or the slot is
camera-facing (targetDir = cameraDir); with a non-zero twist in screen-fixed
mode the extra rotation about cameraDir moves the image off targetDir (see
the counterexample). -/
theorem c1_rotation_maps_centroid (cdir tdir cameraDir : V3) (tw : ℝ)
    (hS : (frameBasis cdir)ᵀ * frameBasis cdir = 1)
    (hT : (frameBasis tdir)ᵀ * frameBasis tdir = 1)
    (hmode : tw = 0 ∨ tdir = cameraDir) :
    (updateRotation cdir tdir cameraDir tw).mulVec cdir = tdir := by
  unfold updateRotation
  by_cases htw : tw ≠ 0
  · rw [if_pos htw]
    rcases hmode with h0 | hcd
    · exact absurd h0 htw
    · subst hcd
      rw [← Matrix.mulVec_mulVec, frameRotation_maps_centroid hS]
      exact makeRotationAxis_fix _ _ (frameBasis_unit hT)
  · rw [if_neg htw]
    exact frameRotation_maps_centroid hS

/-! ## Concrete slot for the twist-axis counterexamples

Camera at (0,0,13); the stored NDC coordinate unprojects (externally) to the
tangent ray origin (0,0,13), direction (5/13, 0, -12/13), which grazes the
globe sphere at the point 5 * tDir0. -/

noncomputable def tDir0 : V3 := ![12 / 13, 0, 5 / 13]

noncomputable def rayT : ℝ × ℝ → V3 × V3 :=
  fun _ => (![0, 0, 13], ![5 / 13, 0, -(12 / 13)])

noncomputable def slotT : Slot :=
  { active := true, country := none, originalCentroidDir := some tDir0,
    displayNDC := some (0, 0), rotation := 1, fills := [], outlines := [] }

theorem localUpRaw_y0 {d : V3} (h : d 1 = 0) : localUpRaw d = ![0, 1, 0] := by
  unfold localUpRaw
  rw [show dot3 ![0, 1, 0] d = d 1 from by unfold dot3; simp only [v3c0, v3c1, v3c2]; ring,
    h, zero_smul, sub_zero]

theorem normSq3_y : normSq3 (![0, 1, 0] : V3) = 1 := by
  unfold normSq3 dot3
  norm_num

theorem localUp_y0 {d : V3} (h : d 1 = 0) : localUp d = ![0, 1, 0] := by
  unfold localUp localUpSel
  rw [localUpRaw_y0 h, normSq3_y, if_neg (by norm_num)]
  unfold normalize3 norm3
  rw [normSq3_y, Real.sqrt_one]
  funext i
  fin_cases i <;> norm_num

theorem cross_y0 (d : V3) : cross3 ![0, 1, 0] d = ![d 2, 0, -(d 0)] := by
  unfold cross3
  funext i
  fin_cases i <;> simp <;> ring

theorem localFrame_y0 {d : V3} (h : d 1 = 0)
    (hn : norm3 (![d 2, 0, -(d 0)] : V3) = 1) :
    localFrame d = (![d 2, 0, -(d 0)], ![0, 1, 0], d) := by
  unfold localFrame localRight
  rw [localUp_y0 h, cross_y0]
  unfold normalize3
  rw [hn]
  refine congrArg (fun r => (r, (![0, 1, 0] : V3), d)) ?_
  funext i
  fin_cases i <;> simp

theorem localFrame_t0 : localFrame tDir0 = (![5 / 13, 0, -(12 / 13)], ![0, 1, 0], tDir0) := by
  have h1 : tDir0 1 = 0 := rfl
  have hright : (![tDir0 2, 0, -(tDir0 0)] : V3) = ![5 / 13, 0, -(12 / 13)] := by
    funext i
    fin_cases i <;> simp [tDir0]
  have hn : norm3 (![tDir0 2, 0, -(tDir0 0)] : V3) = 1 := by
    rw [hright]
    unfold norm3 normSq3 dot3
    simp only [v3c0, v3c1, v3c2]
    exact sqrt_eq_of_sq (by norm_num) (by norm_num)
  rw [localFrame_y0 h1 hn, hright]

theorem localFrame_ez : localFrame (![0, 0, 1] : V3) =
    (![1, 0, 0], ![0, 1, 0], ![0, 0, 1]) := by
  have h1 : (![0, 0, 1] : V3) 1 = 0 := rfl
  have hright : (![(![0, 0, 1] : V3) 2, 0, -((![0, 0, 1] : V3) 0)] : V3) = ![1, 0, 0] := by
    funext i
    fin_cases i <;> simp
  have hn : norm3 (![(![0, 0, 1] : V3) 2, 0, -((![0, 0, 1] : V3) 0)] : V3) = 1 := by
    rw [hright]
    unfold norm3 normSq3 dot3
    simp only [v3c0, v3c1, v3c2]
    exact sqrt_eq_of_sq (by norm_num) (by norm_num)
  rw [localFrame_y0 h1 hn, hright]

theorem frameBasis_t0_orth : (frameBasis tDir0)ᵀ * frameBasis tDir0 = 1 := by
  unfold frameBasis
  rw [localFrame_t0]
  ext i j
  rw [Matrix.mul_apply, Fin.sum_univ_three]
  fin_cases i <;> fin_cases j <;>
    simp [makeBasis, Matrix.transpose_apply, Matrix.of_apply, Matrix.one_apply, tDir0] <;>
    norm_num

theorem frameBasis_t0_orth_right : frameBasis tDir0 * (frameBasis tDir0)ᵀ = 1 := by
  unfold frameBasis
  rw [localFrame_t0]
  ext i j
  rw [Matrix.mul_apply, Fin.sum_univ_three]
  fin_cases i <;> fin_cases j <;>
    simp [makeBasis, Matrix.transpose_apply, Matrix.of_apply, Matrix.one_apply, tDir0] <;>
    norm_num

theorem frameRotation_t0 : frameRotation tDir0 tDir0 = 1 := by
  unfold frameRotation
  rw [Matrix.inv_eq_right_inv frameBasis_t0_orth_right]
  exact frameBasis_t0_orth_right

theorem frameBasis_ez_orth :
    (frameBasis (![0, 0, 1] : V3))ᵀ * frameBasis ![0, 0, 1] = 1 := by
  unfold frameBasis
  rw [localFrame_ez]
  ext i j
  rw [Matrix.mul_apply, Fin.sum_univ_three]
  fin_cases i <;> fin_cases j <;>
    simp [makeBasis, Matrix.transpose_apply, Matrix.of_apply, Matrix.one_apply,
      Matrix.vecHead, Matrix.vecTail] <;>
    norm_num

theorem normalize_cam13 : normalize3 (![0, 0, 13] : V3) = ![0, 0, 1] := by
  unfold normalize3
  rw [show norm3 (![0, 0, 13] : V3) = 13 from by
    unfold norm3 normSq3 dot3
    simp only [v3c0, v3c1, v3c2]
    exact sqrt_eq_of_sq (by norm_num) (by norm_num)]
  funext i
  fin_cases i <;> simp <;> norm_num

theorem ndc_hit_t0 : ndcToGlobeDir (rayT (0, 0)) = some tDir0 := by
  show rayToSphereDir ![0, 0, 13] ![5 / 13, 0, -(12 / 13)] overlayGlobeR = some tDir0
  have hb : dot3 ![0, 0, 13] ![5 / 13, 0, -(12 / 13)] = -12 := by
    unfold dot3
    norm_num
  have hc : dot3 (![0, 0, 13] : V3) ![0, 0, 13] = 169 := by
    unfold dot3
    norm_num
  have hv : (![0, 0, 13] : V3) + (12 : ℝ) • ![5 / 13, 0, -(12 / 13)] =
      ![60 / 13, 0, 25 / 13] := by
    funext i
    fin_cases i <;> simp <;> norm_num
  have hn : norm3 (![60 / 13, 0, 25 / 13] : V3) = 5 := by
    unfold norm3 normSq3 dot3
    simp only [v3c0, v3c1, v3c2]
    exact sqrt_eq_of_sq (by norm_num) (by norm_num)
  unfold rayToSphereDir overlayGlobeR
  rw [hb, hc]
  rw [if_neg (by norm_num)]
  rw [show -(-12 : ℝ) - Real.sqrt ((-12) * (-12) - (169 - 5 * 5)) = 12 from by
    norm_num]
  rw [if_neg (by norm_num)]
  rw [hv]
  unfold normalize3
  rw [hn]
  refine congrArg some ?_
  funext i
  fin_cases i <;> simp [tDir0] <;> norm_num

theorem slotT_rotation :
    (updateSlot ![0, 0, 13] rayT (Real.pi / 2) slotT).rotation =
      makeRotationAxis ![0, 0, 1] (-(Real.pi / 2)) * frameRotation tDir0 tDir0 := by
  have hpi : (Real.pi / 2 : ℝ) ≠ 0 := ne_of_gt (by positivity)
  simp only [updateSlot, slotT, ndc_hit_t0, normalize_cam13, Option.getD_some, if_true]
  unfold updateRotation
  rw [if_pos hpi]

theorem c1_rotation_maps_centroid_witness :
    ((frameBasis (![0, 0, 1] : V3))ᵀ * frameBasis ![0, 0, 1] = 1) ∧
      (updateRotation ![0, 0, 1] ![0, 0, 1] ![0, 0, 1] 0).mulVec ![0, 0, 1] =
        ![0, 0, 1] :=
  ⟨frameBasis_ez_orth,
    c1_rotation_maps_centroid ![0, 0, 1] ![0, 0, 1] ![0, 0, 1] 0
      frameBasis_ez_orth frameBasis_ez_orth (Or.inl rfl)⟩

/-- C1 counterexample: a slot in screen-fixed mode whose frozen centroid
direction equals the frame target direction tDir0 (both tangent frames are
orthonormal), with shared twist pi/2: after update() the computed rotation
moves the centroid direction off targetDir, because the twist is applied
about cameraDir = (0,0,1) rather than about targetDir. -/
theorem c1_rotation_cex :
    ((frameBasis tDir0)ᵀ * frameBasis tDir0 = 1) ∧
      ndcToGlobeDir (rayT (0, 0)) = some tDir0 ∧
      slotT.originalCentroidDir = some tDir0 ∧
      (updateSlot ![0, 0, 13] rayT (Real.pi / 2) slotT).rotation.mulVec tDir0 ≠ tDir0 := by
  refine ⟨frameBasis_t0_orth, ndc_hit_t0, rfl, ?_⟩
  rw [slotT_rotation, frameRotation_t0, mul_one]
  intro h
  have h0 := congrFun h 0
  rw [Matrix.mulVec, Matrix.dotProduct, Fin.sum_univ_three] at h0
  unfold makeRotationAxis at h0
  simp [Matrix.of_apply, tDir0, Real.cos_neg, Real.sin_neg, Real.cos_pi_div_two,
    Real.sin_pi_div_two] at h0
  norm_num at h0

/-- C2 (amended): with a non-zero shared twist, the rotation computed by
update() equals the frame-mapping rotation premultiplied by a rotation of
minus the twist about the camera-to-origin direction cameraDir (not about
targetDir); in camera-facing mode, where targetDir = cameraDir, this
coincides with a twist about targetDir as the spec says. -/
theorem c2_twist_about_camera (cdir tdir cameraDir : V3) (tw : ℝ) (htw : tw ≠ 0) :
    updateRotation cdir tdir cameraDir tw =
        makeRotationAxis cameraDir (-tw) * frameRotation cdir tdir ∧
      (tdir = cameraDir →
        updateRotation cdir tdir cameraDir tw =
          makeRotationAxis tdir (-tw) * frameRotation cdir tdir) := by
  constructor
  · unfold updateRotation
    rw [if_pos htw]
  · intro h
    unfold updateRotation
    rw [if_pos htw, h]

theorem c2_twist_about_camera_witness :
    ((1 : ℝ) ≠ 0) ∧
      updateRotation ![0, 0, 1] ![0, 0, 1] ![0, 0, 1] 1 =
        makeRotationAxis ![0, 0, 1] (-1) * frameRotation ![0, 0, 1] ![0, 0, 1] :=
  ⟨one_ne_zero, (c2_twist_about_camera _ _ _ 1 one_ne_zero).1⟩

/-- C2 counterexample: in screen-fixed mode with target direction tDir0 off
the camera axis and twist pi/2, the computed rotation (twist about
cameraDir) differs from the frame rotation premultiplied by the twist about
targetDir: the two matrices disagree at entry (0,0), 0 against 144/169. -/
theorem c2_twist_axis_cex :
    (updateSlot ![0, 0, 13] rayT (Real.pi / 2) slotT).rotation ≠
      makeRotationAxis tDir0 (-(Real.pi / 2)) * frameRotation tDir0 tDir0 := by
  rw [slotT_rotation, frameRotation_t0, mul_one, mul_one]
  intro h
  have h00 := congrFun (congrFun h 0) 0
  unfold makeRotationAxis at h00
  simp [Matrix.of_apply, tDir0, Real.cos_neg, Real.sin_neg, Real.cos_pi_div_two,
    Real.sin_pi_div_two] at h00
